import Mathlib

/-!
Shallow embedding of the FLL SpikePrime robot code (src/drivebase.py and
src/menu.py) together with proofs about its control laws and its mission
executor.

Conventions of the embedding:
* Python numbers (ints and floats) are modelled as exact rationals `ℚ`.
* Python `round` (banker's rounding), `%` (sign of the divisor), and `int`
  (truncation toward zero) are modelled explicitly as `pythonRound`,
  `pymod`, `pyint`.
* The configuration constants of `config.py` (which only `main.py` reads and
  whose file is not part of the sources here) appear as parameters:
  `accel = ACCELERATION`, `start = STARTSPEED`, `N = SPEED_LIST_COUNT`,
  `tmin/tmax = TURN_SPEED_MIN/MAX`, `turnCorr = TURN_CORRECTION_SPEED`.
* A resumable control loop (a Python generator ticked by `next`) is modelled
  either as a per-tick step function on its observable inputs, or, for the
  executor, as a recursive run function over task lifespans.
-/

namespace SpikePrime

/-- Python round-half-to-even on rationals: nearest integer, with ties going
to the even neighbour (CPython one-argument `round`). For a non-tie the
Mathlib `round` (nearest integer) agrees with Python. -/
def pythonRound (x : ℚ) : ℤ :=
  if 2 * (x - ⌊x⌋) = 1 then (if ⌊x⌋ % 2 = 0 then ⌊x⌋ else ⌊x⌋ + 1) else round x

/-- Python `%` on rationals for modulus `m > 0`: `x % m = x - m * ⌊x / m⌋`,
always landing in `[0, m)`. -/
def pymod (x m : ℚ) : ℚ := x - m * ⌊x / m⌋

/-- Python `int()` on rationals: truncation toward zero. -/
def pyint (x : ℚ) : ℤ := if 0 ≤ x then ⌊x⌋ else -⌊-x⌋

/-- Drivebase.sign: `1 if x >= 0 else -1`. -/
def sign (x : ℚ) : ℚ := if 0 ≤ x then 1 else -1

/-- One actuator command issued to the DriveBase: either
`drive(speed, turnRate)` or `stop()`. -/
inductive Action where
  | drive (speed turnRate : ℚ) : Action
  | stop : Action
deriving DecidableEq

/-- Drivebase.getHead: `(gyro.heading() + 180) % 360 - 180`, the gyro heading
normalised by the Python `%` operator. -/
def getHead (gyroHeading : ℚ) : ℚ := pymod (gyroHeading + 180) 360 - 180

/-- Heading normalisation `normalize(angle) = ((angle + 180) % 360) - 180` as
used by `Drivebase.getHead` and `Drivebase.turnAngle`. -/
def normalize (angle : ℚ) : ℚ := pymod (angle + 180) 360 - 180

/-- Drivebase.turnAngle: `(heading - getHead() + 180) % 360 - 180`, the turn
error from the current gyro heading to the target heading. -/
def turnAngle (heading gyroHeading : ℚ) : ℚ :=
  pymod (heading - getHead gyroHeading + 180) 360 - 180

theorem pymod_eq_fract (x : ℚ) : pymod x 360 = 360 * Int.fract (x / 360) := by
  unfold pymod Int.fract
  ring

theorem pymod360_bounds (x : ℚ) : 0 ≤ pymod x 360 ∧ pymod x 360 < 360 := by
  rw [pymod_eq_fract]
  constructor
  · have h := Int.fract_nonneg (x / 360)
    linarith
  · have h := Int.fract_lt_one (x / 360)
    linarith

theorem normalize_bounds (x : ℚ) : -180 ≤ normalize x ∧ normalize x < 180 := by
  have h := pymod360_bounds (x + 180)
  unfold normalize
  constructor <;> linarith [h.1, h.2]

theorem pymod_of_bounds (x : ℚ) (h0 : 0 ≤ x) (h1 : x < 360) : pymod x 360 = x := by
  unfold pymod
  have hfl : ⌊x / 360⌋ = 0 := by
    rw [Int.floor_eq_zero_iff]
    constructor
    · positivity
    · rw [div_lt_one (by norm_num : (0:ℚ) < 360)]
      exact h1
  rw [hfl]
  push_cast
  ring

theorem normalize_fixed (x : ℚ) (h0 : -180 ≤ x) (h1 : x < 180) : normalize x = x := by
  unfold normalize
  rw [pymod_of_bounds (x + 180) (by linarith) (by linarith)]
  ring

theorem normalize_idem (x : ℚ) : normalize (normalize x) = normalize x := by
  have h := normalize_bounds x
  exact normalize_fixed _ h.1 h.2

theorem normalize_period (x : ℚ) : normalize (x + 360) = normalize x := by
  unfold normalize pymod
  have harg : (x + 360 + 180) / 360 = (x + 180) / 360 + 1 := by ring
  rw [harg, Int.floor_add_one]
  push_cast
  ring

/-- C6 counterexample: the claim places `normalize` in the half-open interval
`(-180, 180]`, but `normalize 180 = -180`, which is outside that interval
(the code's interval is `[-180, 180)`). -/
theorem normalize_claim_counterexample :
    normalize 180 = -180 ∧ ¬ (-180 < normalize 180 ∧ normalize 180 ≤ 180) := by
  have h : normalize 180 = -180 := by
    unfold normalize pymod
    norm_num
  refine ⟨h, ?_⟩
  rw [h]
  norm_num

/-- C6 (amended): `normalize(x) = ((x + 180) mod 360) - 180` lies in the
half-open interval `[-180, 180)` (not `(-180, 180]` as claimed); moreover
`normalize (normalize x) = normalize x` and `normalize (x + 360) = normalize x`.
The derived heading (`getHead`) and turn-error (`turnAngle`) computations apply
this normalization and land in the same interval. -/
theorem normalize_range_idem_periodic (x : ℚ) :
    (-180 ≤ normalize x ∧ normalize x < 180) ∧
    normalize (normalize x) = normalize x ∧
    normalize (x + 360) = normalize x ∧
    (-180 ≤ getHead x ∧ getHead x < 180) ∧
    (∀ h : ℚ, -180 ≤ turnAngle h x ∧ turnAngle h x < 180) := by
  refine ⟨normalize_bounds x, normalize_idem x, normalize_period x, ?_, ?_⟩
  · exact normalize_bounds x
  · intro h
    exact normalize_bounds (h - getHead x)

/-!  ### LineFollow PID (Drivebase.lineFollower loop body)  -/

/-- Private loop state of the line follower: the previous error and the leaky
integral, both initialised to `0` at the start of the loop. -/
structure PIDState where
  lastError : ℚ
  integral : ℚ
deriving DecidableEq

/-- One body of the `Drivebase.lineFollower` while-loop, state update and
turn-rate computation:
`error = 60 - reading`, `derivative = error - lastError`,
`integral = integral / 2 + error`,
`turnRate = error * kp + derivative * kd + integral * ki`.
Returns the updated state and the turn rate. -/
def lineFollowUpdate (kp ki kd : ℚ) (st : PIDState) (reading : ℚ) : PIDState × ℚ :=
  let error := 60 - reading
  let derivative := error - st.lastError
  let lastError := error
  let integral := st.integral / 2 + error
  let turnRate := error * kp + derivative * kd + integral * ki
  (⟨lastError, integral⟩, turnRate)

/-- Integral values produced by repeatedly running the line-follower loop body
over a list of sensor readings. -/
def integralTrace (kp ki kd : ℚ) (st : PIDState) (readings : List ℚ) : List ℚ :=
  match readings with
  | [] => []
  | r :: rs =>
    let u := lineFollowUpdate kp ki kd st r
    u.1.integral :: integralTrace kp ki kd u.1 rs

/-- C5: the per-tick PID update of LineFollow satisfies exactly
`error = 60 - reading`, `derivative = error - lastError` (unit step),
`integral' = integral/2 + error` (leaky), and
`turnRate = kp*error + kd*derivative + ki*integral'`; and from `integral = 0`
the readings `[50, 70, 50]` (error sequence `[10, -10, 10]`) produce the
integral sequence `[10, -5, 7.5]` (at the default gains `kp = 1.2`, `ki = 0`,
`kd = 10`). -/
theorem lineFollow_pid_update (kp ki kd : ℚ) (st : PIDState) (reading : ℚ) :
    ((lineFollowUpdate kp ki kd st reading).1.lastError = 60 - reading ∧
     (lineFollowUpdate kp ki kd st reading).1.integral =
       st.integral / 2 + (60 - reading) ∧
     (lineFollowUpdate kp ki kd st reading).2 =
       kp * (60 - reading) + kd * ((60 - reading) - st.lastError) +
         ki * (st.integral / 2 + (60 - reading))) ∧
    integralTrace (6/5) 0 10 ⟨0, 0⟩ [50, 70, 50] = [10, -5, 15/2] := by
  refine ⟨⟨rfl, rfl, ?_⟩, by norm_num [integralTrace, lineFollowUpdate]⟩
  unfold lineFollowUpdate
  ring

/-!  ### Mission executor (menu.execute)

A resumable ControlTask is modelled by its lifespan `n : ℕ`: its `step()`
(one `next` on the generator) returns `True` on its first `n` ticks and
`False` on tick `n + 1`, after which it is discarded.  -/

/-- One executor tick over a parallel set (menu.execute, parallel branch):
the loop `for i in range(len(item)-1, -1, -1): if not next(item[i]):
count -= 1; del item[i]` steps every still-active member once and deletes
in place each member whose `step()` returned `False`; the members that
remain keep their order, each with one tick consumed. -/
def parTick (items : List ℕ) : List ℕ :=
  items.filterMap fun n => if n = 0 then none else some (n - 1)

/-- Termination measure for the parallel executor: each live member
contributes its remaining lifespan plus one. -/
def parMeasure (items : List ℕ) : ℕ := (items.map (· + 1)).sum

theorem parTick_cons (n : ℕ) (rest : List ℕ) :
    parTick (n :: rest) =
      if n = 0 then parTick rest else (n - 1) :: parTick rest := by
  by_cases h : n = 0 <;> simp [parTick, List.filterMap_cons, h]

theorem parMeasure_parTick (items : List ℕ) :
    parMeasure (parTick items) + items.length = parMeasure items := by
  induction items with
  | nil => rfl
  | cons n rest ih =>
    rw [parTick_cons]
    by_cases h : n = 0
    · subst h
      rw [if_pos rfl]
      simp only [parMeasure, List.map_cons, List.sum_cons, List.length_cons] at *
      omega
    · rw [if_neg h]
      simp only [parMeasure, List.map_cons, List.sum_cons, List.length_cons] at *
      omega

theorem parMeasure_lt (items : List ℕ) (h : items ≠ []) :
    parMeasure (parTick items) < parMeasure items := by
  have hm := parMeasure_parTick items
  have hl : 0 < items.length := List.length_pos.mpr h
  omega

/-- Remaining-count sequence of the parallel executor: the value of `count`
(equal to `len(item)`) before the run and after each tick of the
`while count != 0` loop. -/
def parCounts (items : List ℕ) : List ℕ :=
  items.length :: (if h : items = [] then [] else parCounts (parTick items))
termination_by parMeasure items
decreasing_by exact parMeasure_lt items h

/-- Number of ticks the parallel executor runs before `count` reaches zero. -/
def parRun (items : List ℕ) : ℕ :=
  if h : items = [] then 0 else 1 + parRun (parTick items)
termination_by parMeasure items
decreasing_by exact parMeasure_lt items h

theorem parCounts_ends_zero (items : List ℕ) :
    (parCounts items).getLast? = some 0 := by
  by_cases h : items = []
  · subst h
    rw [parCounts]
    rfl
  · rw [parCounts, dif_neg h]
    have ih := parCounts_ends_zero (parTick items)
    rw [List.getLast?_cons]
    rw [parCounts] at ih ⊢
    split at ih <;> simp_all
termination_by parMeasure items
decreasing_by exact parMeasure_lt items h

/-- C1: the parallel executor steps each still-active member every tick,
removes a member and decrements the remaining-count exactly when that
member's `step()` returns `False` (so the count drops by the number of
members that finished this tick), and it terminates when the count reaches
zero (the count sequence always ends in `0`).  For three tasks whose
`step()` returns `True` for `0`, `1` and `2` ticks respectively, the set
completes in exactly `3` ticks with remaining-count sequence `3,2,1,0`. -/
theorem parallel_executor_spec (items : List ℕ) :
    ((parTick items).length + items.countP (fun n => decide (n = 0)) =
      items.length) ∧
    (parCounts items).getLast? = some 0 ∧
    parRun [0, 1, 2] = 3 ∧
    parCounts [0, 1, 2] = [3, 2, 1, 0] := by
  refine ⟨?_, parCounts_ends_zero items, ?_, ?_⟩
  · induction items with
    | nil => rfl
    | cons n rest ih =>
      rw [parTick_cons]
      by_cases h : n = 0
      · subst h
        rw [if_pos rfl]
        simp only [List.countP_cons, List.length_cons, decide_eq_true_eq, if_true]
        omega
      · rw [if_neg h]
        simp only [List.countP_cons, List.length_cons, decide_eq_true_eq]
        rw [if_neg h]
        omega
  · rw [parRun, dif_neg (by decide)]
    rw [show parTick [0, 1, 2] = [0, 1] from rfl]
    rw [parRun, dif_neg (by decide)]
    rw [show parTick [0, 1] = [0] from rfl]
    rw [parRun, dif_neg (by decide)]
    rw [show parTick [0] = ([] : List ℕ) from rfl]
    rw [parRun, dif_pos rfl]
  · rw [parCounts, dif_neg (by decide)]
    rw [show parTick [0, 1, 2] = [0, 1] from rfl]
    rw [parCounts, dif_neg (by decide)]
    rw [show parTick [0, 1] = [0] from rfl]
    rw [parCounts, dif_neg (by decide)]
    rw [show parTick [0] = ([] : List ℕ) from rfl]
    rw [parCounts, dif_pos rfl]
    rfl

/-!  ### Sequence execution with cancellation (menu.execute / menu.quit)

In the sequential branch of `menu.execute`, each resumable item is driven by
`while next(temp): if self.quit(): return`.  The cancellation signal
(`menu.quit`, the Bluetooth button) is modelled as a predicate
`quit : ℕ → Bool` on the global tick counter: `quit t` is the value polled
right after the `next` call of global tick `t`. -/

/-- Record of driving one resumable item: the global tick indices at which
`next` was called on it, the global tick counter afterwards, and whether the
executor returned early because cancellation was observed. -/
structure StepRun where
  ticks : List ℕ
  tEnd : ℕ
  aborted : Bool
deriving DecidableEq

/-- Drive one resumable item of lifespan `n` starting at global tick `t`:
`while next(temp): if self.quit(): return`.  Each `next` consumes one global
tick; after a `next` that returned `True` the cancellation signal is polled
and, if set, the whole mission is abandoned. -/
def runStep : ℕ → (ℕ → Bool) → ℕ → StepRun
  | 0, _, t => ⟨[t], t + 1, false⟩
  | n + 1, quit, t =>
    if quit t then ⟨[t], t + 1, true⟩
    else
      let r := runStep n quit (t + 1)
      ⟨t :: r.ticks, r.tEnd, r.aborted⟩

/-- Drive a sequence of resumable items (the `for item in ...` loop of
`menu.execute`) starting at global tick `t`: returns the per-item tick
traces, in order, and whether the mission was aborted by cancellation.
On abort the executor returns at once: no later item is ever started. -/
def runSeq : List ℕ → (ℕ → Bool) → ℕ → List (List ℕ) × Bool
  | [], _, _ => ([], false)
  | s :: rest, quit, t =>
    let r := runStep s quit t
    if r.aborted then ([r.ticks], true)
    else
      let rec2 := runSeq rest quit r.tEnd
      (r.ticks :: rec2.1, rec2.2)

theorem range_map_shift (t k : ℕ) :
    (List.range (k + 1 + 1)).map (fun x => t + x) =
      t :: (List.range (k + 1)).map (fun x => t + 1 + x) := by
  rw [List.range_succ_eq_map]
  simp only [List.map_cons, List.map_map, Nat.add_zero]
  congr 1
  apply List.map_congr_left
  intro a ha
  simp only [Function.comp_apply]
  omega

theorem runStep_aborted_shape (n : ℕ) (quit : ℕ → Bool) (t : ℕ)
    (h : (runStep n quit t).aborted = true) :
    ∃ k, k < n ∧ quit (t + k) = true ∧ (∀ j, j < k → quit (t + j) = false) ∧
      (runStep n quit t).ticks = (List.range (k + 1)).map (t + ·) ∧
      (runStep n quit t).tEnd = t + k + 1 := by
  induction n generalizing t with
  | zero => simp [runStep] at h
  | succ m ih =>
    by_cases hq : quit t = true
    · refine ⟨0, Nat.succ_pos m, by simpa using hq, by omega, ?_, by simp [runStep, hq]⟩
      simp [runStep, hq, List.range_succ]
    · have hq2 : quit t = false := by simpa using hq
      rw [runStep] at h
      simp only [hq2, Bool.false_eq_true, if_false] at h
      obtain ⟨k, hk, hqk, hprev, hticks, hend⟩ := ih (t + 1) h
      refine ⟨k + 1, by omega, by rw [show t + (k + 1) = t + 1 + k by ring]; exact hqk, ?_, ?_, ?_⟩
      · intro j hj
        cases j with
        | zero => simpa using hq2
        | succ i =>
          rw [show t + (i + 1) = t + 1 + i by ring]
          exact hprev i (by omega)
      · rw [runStep]
        simp only [hq2, Bool.false_eq_true, if_false]
        rw [hticks, range_map_shift]
      · rw [runStep]
        simp only [hq2, Bool.false_eq_true, if_false]
        omega

/-- C2: if cancellation is observed while the first step of a two-step
sequence is still running, then the executor aborts the whole mission: the
trace contains only step 1 (step 2 and everything after it is never
invoked), and step 1 was ticked exactly at ticks `0, ..., a`, where `a` is
the first tick at whose poll the cancellation signal was set — so step 1
receives no further ticks after cancellation is observed, and the aborted
mission is never resumed. -/
theorem sequence_cancellation_aborts (s1 s2 : ℕ) (quit : ℕ → Bool)
    (h : (runStep s1 quit 0).aborted = true) :
    (runSeq [s1, s2] quit 0).2 = true ∧
    (runSeq [s1, s2] quit 0).1 = [(runStep s1 quit 0).ticks] ∧
    ∃ a, quit a = true ∧ (∀ j, j < a → quit j = false) ∧
      (runStep s1 quit 0).ticks = List.range (a + 1) := by
  refine ⟨?_, ?_, ?_⟩
  · rw [runSeq]
    simp [h]
  · rw [runSeq]
    simp [h]
  · obtain ⟨k, _, hqk, hprev, hticks, _⟩ := runStep_aborted_shape s1 quit 0 h
    refine ⟨k, by simpa using hqk, by simpa using hprev, ?_⟩
    rw [hticks]
    simp

/-- C2 witness: for lifespans `3` and `2` with cancellation first set at the
poll after tick `1`, the hypotheses and conclusion hold concretely. -/
theorem sequence_cancellation_aborts_witness :
    (runStep 3 (fun t => t == 1) 0).aborted = true ∧
    ((runSeq [3, 2] (fun t => t == 1) 0).2 = true ∧
     (runSeq [3, 2] (fun t => t == 1) 0).1 = [(runStep 3 (fun t => t == 1) 0).ticks] ∧
     ∃ a, (fun t => t == 1) a = true ∧ (∀ j, j < a → (fun t => t == 1) j = false) ∧
       (runStep 3 (fun t => t == 1) 0).ticks = List.range (a + 1)) :=
  ⟨by decide, sequence_cancellation_aborts 3 2 (fun t => t == 1) (by decide)⟩

/-!  ### Speed profile (Drivebase.getSpeed, SPEEDLIST, rampSpeed)  -/

/-- Drivebase.getSpeed: `round(umath.sqrt(dist*2*ACCELERATION + STARTSPEED**2))`.
For natural-number configuration constants the radicand `n` is a natural
number, and the integer nearest to `√n` equals
`(⌊2·√n⌋ + 1) / 2 = (Nat.sqrt (4*n) + 1) / 2`; the tie `√n = k + 1/2` is
impossible for integer `n`, so round-half-to-even never differs here. -/
def getSpeed (accel start dist : ℕ) : ℕ :=
  (Nat.sqrt (4 * (dist * 2 * accel + start ^ 2)) + 1) / 2

/-- Drivebase.SPEEDLIST: `[getSpeed dist for dist in range(SPEED_LIST_COUNT)]`,
built once at drivebase construction. -/
def SPEEDLIST (accel start N : ℕ) : List ℕ :=
  (List.range N).map (getSpeed accel start)

/-- Drivebase.rampSpeed: the (rounded) distance from the nearer end of the
move is clamped to the table range, looked up in SPEEDLIST, capped at
`|speedLimit|` and signed with `sign speedLimit`. -/
def rampSpeed (accel start N : ℕ) (distance curr speedLimit : ℚ) : ℚ :=
  let delta : ℤ :=
    if distance / 2 < curr then pythonRound |distance - curr|
    else pythonRound |curr|
  let speed : ℕ := (SPEEDLIST accel start N).getD (min delta ((N : ℤ) - 1)).toNat 0
  sign speedLimit * min (speed : ℚ) |speedLimit|

/-- Spec section 4.1 `lookup`, written from the spec's words for comparison
with the source's `rampSpeed`:
`idx = min(deltaDistance, N-1)`; `result = sign(cap) * min(table[idx], |cap|)`. -/
def lookup (accel start N : ℕ) (deltaDistance : ℤ) (cap : ℚ) : ℚ :=
  let idx := min deltaDistance ((N : ℤ) - 1)
  sign cap * min (((SPEEDLIST accel start N).getD idx.toNat 0 : ℕ) : ℚ) |cap|

theorem pythonRound_nonneg (x : ℚ) (h : 0 ≤ x) : 0 ≤ pythonRound x := by
  unfold pythonRound
  split
  · have hfl : (0:ℤ) ≤ ⌊x⌋ := Int.floor_nonneg.mpr h
    split
    · exact hfl
    · omega
  · rw [round_eq]
    apply Int.floor_nonneg.mpr
    linarith

theorem getSpeed_ge_one (accel start dist : ℕ) (h : 1 ≤ start) :
    1 ≤ getSpeed accel start dist := by
  unfold getSpeed
  have h1 : 1 ≤ start ^ 2 := Nat.one_le_pow 2 start (by omega)
  have h2 : 1 ≤ dist * 2 * accel + start ^ 2 :=
    le_trans h1 (Nat.le_add_left _ _)
  have hsq : 2 ≤ Nat.sqrt (4 * (dist * 2 * accel + start ^ 2)) := by
    rw [Nat.le_sqrt]
    calc 2 * 2 = 4 * 1 := by norm_num
    _ ≤ 4 * (dist * 2 * accel + start ^ 2) := Nat.mul_le_mul_left 4 h2
  omega

theorem SPEEDLIST_getD_ge_one (accel start N : ℕ) (hstart : 1 ≤ start)
    (i : ℕ) (hi : i < N) : 1 ≤ (SPEEDLIST accel start N).getD i 0 := by
  unfold SPEEDLIST
  simp only [List.getD_eq_getElem?_getD, List.getElem?_map, List.getElem?_range hi,
    Option.map_some, Option.getD_some]
  exact getSpeed_ge_one accel start i hstart

theorem clamped_index_lt (delta : ℤ) (N : ℕ) (hd : 0 ≤ delta) (hN : 1 ≤ N) :
    (min delta ((N : ℤ) - 1)).toNat < N := by
  omega

theorem rampSpeed_entry_ge_one (accel start N : ℕ) (hstart : 1 ≤ start)
    (hN : 1 ≤ N) (delta : ℤ) (hd : 0 ≤ delta) :
    1 ≤ (SPEEDLIST accel start N).getD (min delta ((N : ℤ) - 1)).toNat 0 :=
  SPEEDLIST_getD_ge_one accel start N hstart _ (clamped_index_lt delta N hd hN)

theorem sign_mul_min_sign (entry cap : ℚ) (h1 : 1 ≤ entry) :
    sign (sign cap * min entry |cap|) = sign cap := by
  unfold sign
  by_cases hc : 0 ≤ cap
  · rw [if_pos hc, one_mul,
      if_pos (le_min (by linarith) (abs_nonneg cap))]
  · rw [if_neg hc]
    have hcap : 0 < |cap| := abs_pos.mpr (by intro h0; rw [h0] at hc; exact hc le_rfl)
    have hm : 0 < min entry |cap| := lt_min (by linarith) hcap
    rw [if_neg (by nlinarith)]

theorem abs_sign_mul_min_le (entry cap : ℚ) (h0 : 0 ≤ entry) :
    abs (sign cap * min entry (abs cap)) ≤ abs cap := by
  have hm : 0 ≤ min entry |cap| := le_min h0 (abs_nonneg cap)
  rw [abs_mul]
  have hs : |sign cap| = 1 := by
    unfold sign
    split <;> norm_num
  rw [hs, one_mul, abs_of_nonneg hm]
  exact min_le_right _ _

theorem rampSpeed_delta_symm (D d : ℚ) :
    (if D / 2 < d then pythonRound |D - d| else pythonRound |d|) =
    (if D / 2 < D - d then pythonRound |D - (D - d)| else pythonRound |D - d|) := by
  rcases lt_trichotomy (D / 2) d with h | h | h
  · rw [if_pos h, if_neg (by intro hcon; linarith)]
  · rw [if_neg (by intro hcon; linarith), if_neg (by intro hcon; linarith)]
    have hdd : D - d = d := by linarith
    rw [hdd]
  · rw [if_neg (by intro hcon; linarith), if_pos (by linarith)]
    have hdd : D - (D - d) = d := by ring
    rw [hdd]

theorem rampSpeed_symm_eq (accel start N : ℕ) (D d cap : ℚ) :
    rampSpeed accel start N D d cap = rampSpeed accel start N D (D - d) cap := by
  simp only [rampSpeed]
  rw [rampSpeed_delta_symm D d]

/-- C7: for a move of total length `D`, any traveled distance `d` with
`0 ≤ d ≤ D`, and any cap, `rampSpeed` (the realisation of the spec's
`lookup`) keeps the sign of the cap, never exceeds the cap in magnitude, and
its magnitude is symmetric about the midpoint of the move. The configuration
constants are parameters (config.py is not among the sources); `STARTSPEED ≥ 1`
and `SPEED_LIST_COUNT ≥ 1` per the spec's constant-acceleration ramp model. -/
theorem rampSpeed_sign_bound_symmetric (accel start N : ℕ)
    (hstart : 1 ≤ start) (hN : 1 ≤ N) (D d cap : ℚ)
    (h0 : 0 ≤ d) (hD : d ≤ D) :
    sign (rampSpeed accel start N D d cap) = sign cap ∧
    |rampSpeed accel start N D d cap| ≤ |cap| ∧
    |rampSpeed accel start N D d cap| = |rampSpeed accel start N D (D - d) cap| := by
  have hdel : (0:ℤ) ≤ (if D / 2 < d then pythonRound |D - d| else pythonRound |d|) := by
    split <;> exact pythonRound_nonneg _ (abs_nonneg _)
  refine ⟨?_, ?_, ?_⟩
  · simp only [rampSpeed]
    apply sign_mul_min_sign
    exact_mod_cast rampSpeed_entry_ge_one accel start N hstart hN _ hdel
  · simp only [rampSpeed]
    apply abs_sign_mul_min_le
    positivity
  · rw [rampSpeed_symm_eq]

/-- C7 witness: a concrete configuration and move satisfying the hypotheses. -/
theorem rampSpeed_sign_bound_symmetric_witness :
    ((1:ℕ) ≤ 10 ∧ (1:ℕ) ≤ 100 ∧ (0:ℚ) ≤ 20 ∧ (20:ℚ) ≤ 100) ∧
    (sign (rampSpeed 10 10 100 100 20 300) = sign 300 ∧
     |rampSpeed 10 10 100 100 20 300| ≤ |(300:ℚ)| ∧
     |rampSpeed 10 10 100 100 20 300| = |rampSpeed 10 10 100 100 (100 - 20) 300|) :=
  ⟨⟨by norm_num, by norm_num, by norm_num, by norm_num⟩,
    rampSpeed_sign_bound_symmetric 10 10 100 (by norm_num) (by norm_num)
      100 20 300 (by norm_num) (by norm_num)⟩

/-!  ### TurnToHeading (Drivebase.turnTo) and MoveArc (Drivebase.moveArc)  -/

/-- Drivebase.turnSpeed: the turn-rate law
`angle / 180 * (TURN_SPEED_MAX - TURN_SPEED_MIN) + sign(angle) * TURN_SPEED_MIN`. -/
def turnSpeed (tmin tmax : ℚ) (angle : ℚ) : ℚ :=
  angle / 180 * (tmax - tmin) + sign angle * tmin

/-- One tick of the `Drivebase.turnTo` control loop, given the turn error
`angle` (the `turnAngle` of the target recomputed at the end of the previous
tick) and the elapsed time: the loop continues — issuing
`drive(0, turnSpeed(angle))` and yielding `True` — while
`round(angle) not in range(-tolerance, tolerance) and runTime.time() < timeout`
(Python `range(-t, t)` holding the integers `-t ≤ k < t`); otherwise it
calls `stop()` and yields `False`. -/
def turnToStep (tmin tmax : ℚ) (tolerance : ℤ) (timeout : ℚ)
    (angle time : ℚ) : Action × Bool :=
  if (¬ (-tolerance ≤ pythonRound angle ∧ pythonRound angle < tolerance)) ∧
      time < timeout
  then (Action.drive 0 (turnSpeed tmin tmax angle), true)
  else (Action.stop, false)

theorem loop_cond_flip {α : Type} (P : Prop) [Decidable P] (timeout time : ℚ)
    (a b : α) :
    (if (¬ P) ∧ time < timeout then a else b) =
      (if P ∨ timeout ≤ time then b else a) := by
  by_cases hP : P
  · rw [if_neg (fun h => h.1 hP), if_pos (Or.inl hP)]
  · by_cases ht : time < timeout
    · have hnot : ¬ (P ∨ timeout ≤ time) := by
        intro h
        rcases h with h | h
        · exact hP h
        · linarith
      rw [if_pos ⟨hP, ht⟩, if_neg hnot]
    · rw [if_neg (fun h => ht h.2), if_pos (Or.inr (le_of_not_lt ht))]

theorem pythonRound_intCast (n : ℤ) : pythonRound (n : ℚ) = n := by
  unfold pythonRound
  rw [Int.floor_intCast, sub_self, mul_zero]
  rw [if_neg (by norm_num)]
  exact round_intCast n

/-- C3 counterexample: with the default tolerance `1` and turn error `-1`
degrees, the code is terminal — `round(-1) = -1` lies in Python
`range(-1, 1)` — although `|round(error)| < tolerance` is false, so the
claimed terminal condition `|round(error)| < t ∨ elapsed ≥ timeout` does not
match the code at this input. -/
theorem turnTo_claim_counterexample :
    turnToStep 50 300 1 4000 (-1) 0 = (Action.stop, false) ∧
    ¬ (|pythonRound (-1 : ℚ)| < (1:ℤ) ∨ (4000:ℚ) ≤ 0) := by
  have hr : pythonRound (-1 : ℚ) = -1 := by
    rw [show ((-1 : ℚ)) = ((-1 : ℤ) : ℚ) by norm_num, pythonRound_intCast]
  constructor
  · unfold turnToStep
    rw [if_neg]
    intro h
    rw [hr] at h
    exact h.1 ⟨by norm_num, by norm_num⟩
  · rw [hr]
    norm_num

/-- C3 (amended): a TurnToHeading tick with tolerance `t` and timeout is
terminal exactly when `round(error) ∈ range(-t, t)` — that is,
`-t ≤ round(error) < t`, which contains `-t` itself, unlike the claimed
`|round(error)| < t` — or when elapsed time ≥ timeout; on the terminal tick
it issues a stop command and returns `False`, and on every non-terminal tick
it returns `True` after issuing a drive command with zero forward speed and
turn rate `turnSpeed(error)`. -/
theorem turnTo_terminal_characterization (tmin tmax : ℚ) (tolerance : ℤ)
    (timeout angle time : ℚ) :
    turnToStep tmin tmax tolerance timeout angle time =
      (if (-tolerance ≤ pythonRound angle ∧ pythonRound angle < tolerance) ∨
          timeout ≤ time
       then (Action.stop, false)
       else (Action.drive 0 (turnSpeed tmin tmax angle), true)) := by
  unfold turnToStep
  exact loop_cond_flip _ timeout time _ _

/-- Drivebase.moveArc tolerance: `int(2 * abs(speed) / 100)`, with Python
`int()` truncating toward zero. -/
def moveArcTolerance (speed : ℚ) : ℤ := pyint (2 * |speed| / 100)

/-- Drivebase.moveArc turn rate: `(360 * speed) / (umath.pi * 2 * radius)`;
the float constant `umath.pi` is modelled as a parameter `pi`. -/
def moveArcTurnRate (pi speed radius : ℚ) : ℚ := 360 * speed / (pi * 2 * radius)

/-- Drive command issued once by `Drivebase.moveArc` before its wait loop. -/
def moveArcInitCmd (pi speed radius : ℚ) : Action :=
  Action.drive speed (moveArcTurnRate pi speed radius)

/-- One tick of the `Drivebase.moveArc` wait loop, given the current turn
error `angle = turnAngle(heading)` and the elapsed time: continue (yield
`True`, no further command) while
`round(angle) not in range(-tolerance, tolerance) and runTime.time() < timeout`,
otherwise `stop()` and yield `False`. -/
def moveArcStep (tolerance : ℤ) (timeout angle time : ℚ) : Option Action × Bool :=
  if (¬ (-tolerance ≤ pythonRound angle ∧ pythonRound angle < tolerance)) ∧
      time < timeout
  then (none, true)
  else (some Action.stop, false)

/-- C8 counterexample: at speed `80` the code's tolerance `int(1.6) = 1`
differs from the claimed `round(1.6) = 2`; and with tolerance `1` and turn
error `-1` the code is terminal although `|round(error)| < 1` is false, so
the claimed terminal condition also fails. -/
theorem moveArc_claim_counterexample :
    moveArcTolerance 80 = 1 ∧
    pythonRound (2 * |(80:ℚ)| / 100) = 2 ∧
    (1:ℤ) ≠ 2 ∧
    (moveArcStep 1 10000 (-1) 0).2 = false ∧
    ¬ (|pythonRound (-1 : ℚ)| < (1:ℤ) ∨ (10000:ℚ) ≤ 0) := by
  have hr : pythonRound (-1 : ℚ) = -1 := by
    rw [show ((-1 : ℚ)) = ((-1 : ℤ) : ℚ) by norm_num, pythonRound_intCast]
  have htol : moveArcTolerance 80 = 1 := by
    unfold moveArcTolerance pyint
    rw [if_pos (by positivity)]
    rw [show 2 * |(80:ℚ)| / 100 = 8/5 by norm_num]
    norm_num
  have hround : pythonRound (2 * |(80:ℚ)| / 100) = 2 := by
    unfold pythonRound
    rw [show 2 * |(80:ℚ)| / 100 = 8/5 by norm_num]
    rw [if_neg (by norm_num)]
    norm_num [round_eq]
  refine ⟨htol, hround, by norm_num, ?_, ?_⟩
  · unfold moveArcStep
    rw [if_neg]
    intro h
    rw [hr] at h
    exact h.1 ⟨by norm_num, by norm_num⟩
  · rw [hr]
    norm_num

/-- C8 (amended): a MoveArc task uses the constant turn rate
`360*speed / (2*pi*radius)` in its single initial drive command, computes
`tolerance = int(2*|speed|/100)` by truncation (equal to `⌊2*|speed|/100⌋`,
not to `round(2*|speed|/100)` as claimed), and a tick is terminal exactly
when `round(turnError) ∈ range(-tolerance, tolerance)` — i.e.
`-tolerance ≤ round(turnError) < tolerance`, not `|round(turnError)| <
tolerance` as claimed — or elapsed ≥ timeout, stopping the motors on the
terminal tick. -/
theorem moveArc_tolerance_turnrate_terminal (pi speed radius : ℚ)
    (tolerance : ℤ) (timeout angle time : ℚ) :
    moveArcTolerance speed = ⌊2 * |speed| / 100⌋ ∧
    moveArcInitCmd pi speed radius =
      Action.drive speed (360 * speed / (2 * pi * radius)) ∧
    moveArcStep tolerance timeout angle time =
      (if (-tolerance ≤ pythonRound angle ∧ pythonRound angle < tolerance) ∨
          timeout ≤ time
       then (some Action.stop, false)
       else (none, true)) := by
  refine ⟨?_, ?_, ?_⟩
  · unfold moveArcTolerance pyint
    rw [if_pos (by positivity)]
  · unfold moveArcInitCmd moveArcTurnRate
    rw [show pi * 2 * radius = 2 * pi * radius by ring]
  · unfold moveArcStep
    exact loop_cond_flip _ timeout time _ _

/-!  ### MoveDistance (Drivebase.moveDist)  -/

/-- Result of the prologue of the `Drivebase.moveDist` generator. -/
inductive MDStart where
  | invalidSpeed : MDStart
  | divByZero : MDStart
  | ready (timeLimit : ℚ) : MDStart
deriving DecidableEq

/-- Prologue of the `Drivebase.moveDist` generator, run on the first `next`:
a negative speed prints "Error Negative speed" and ends the generator at
once; otherwise (after the heading pre-turn, which merely builds a `turnTo`
coroutine it never ticks, so it issues no command) the code computes the
ramp peak `rampSpeed(|distance|, |distance|/2, speed)` and, when no timeout
was passed, the default time limit
`(|distance| / rampSpeed_max) * 2 * 1000 + 500` — in Python a
`ZeroDivisionError` when `rampSpeed_max` is `0`. -/
def moveDistStartup (accel start N : ℕ) (distance speed : ℚ)
    (timeout : Option ℚ) : MDStart :=
  if speed < 0 then .invalidSpeed
  else
    let posDistance := |distance|
    let rampSpeedMax := rampSpeed accel start N posDistance (posDistance / 2) speed
    match timeout with
    | none =>
      if rampSpeedMax = 0 then .divByZero
      else .ready (posDistance / rampSpeedMax * 2 * 1000 + 500)
    | some t => .ready t

/-- One tick of the `Drivebase.moveDist` while-loop, given the elapsed time
and the raw odometry reading of this tick: the loop ends — `stop()` then
`yield False` — when `timer.time() >= time` or `|odometry| >= |distance|`;
otherwise the tick drives at the ramped speed (or the full speed when a ramp
flag is off on its half of the move) signed by the direction of `distance`,
with heading correction `turnAngle(head) * TURN_CORRECTION_SPEED`, and
yields `True`. -/
def moveDistStep (accel start N : ℕ) (turnCorr : ℚ)
    (distance speed timeLimit : ℚ) (up down : Bool)
    (headAngle elapsed odo : ℚ) : Action × Bool :=
  let posDistance := |distance|
  if elapsed < timeLimit then
    let curr := |odo|
    if posDistance ≤ curr then (Action.stop, false)
    else
      let driveSpeed :=
        if up = false ∧ curr < posDistance / 2 then speed
        else if down = false ∧ posDistance / 2 < curr then speed
        else rampSpeed accel start N posDistance curr speed
      (Action.drive (driveSpeed * sign distance) (headAngle * turnCorr), true)
  else (Action.stop, false)

/-- Outcome of driving one whole `Drivebase.moveDist` ControlTask. -/
inductive MDOutcome where
  | invalidSpeed : MDOutcome
  | divByZero : MDOutcome
  | finished : MDOutcome
  | fuelOut : MDOutcome
deriving DecidableEq

/-- The `Drivebase.moveDist` while-loop driven for at most `fuel` ticks over
environment functions of the tick counter `k`; returns the actions issued,
the number of `yield True` control ticks, and the outcome. -/
def moveDistLoop (accel start N : ℕ) (turnCorr : ℚ)
    (distance speed timeLimit : ℚ) (up down : Bool)
    (headAngle elapsed odo : ℕ → ℚ) : ℕ → ℕ → List Action × ℕ × MDOutcome
  | k, 0 => ([], k, .fuelOut)
  | k, fuel + 1 =>
    match moveDistStep accel start N turnCorr distance speed timeLimit up down
        (headAngle k) (elapsed k) (odo k) with
    | (a, false) => ([a], k, .finished)
    | (a, true) =>
      let r := moveDistLoop accel start N turnCorr distance speed timeLimit
        up down headAngle elapsed odo (k + 1) fuel
      (a :: r.1, r.2.1, r.2.2)

/-- Whole run of one `Drivebase.moveDist` ControlTask: the prologue, then
(when it does not fail) the while-loop. -/
def moveDistRun (accel start N : ℕ) (turnCorr : ℚ) (distance speed : ℚ)
    (timeout : Option ℚ) (up down : Bool) (headAngle elapsed odo : ℕ → ℚ)
    (fuel : ℕ) : List Action × ℕ × MDOutcome :=
  match moveDistStartup accel start N distance speed timeout with
  | .invalidSpeed => ([], 0, .invalidSpeed)
  | .divByZero => ([], 0, .divByZero)
  | .ready timeLimit =>
    moveDistLoop accel start N turnCorr distance speed timeLimit up down
      headAngle elapsed odo 0 fuel

theorem rampSpeed_half_eq_lookup (accel start N : ℕ) (D cap : ℚ)
    (hD : 0 ≤ D) :
    rampSpeed accel start N D (D / 2) cap =
      lookup accel start N (pythonRound (D / 2)) cap := by
  simp only [rampSpeed, lookup]
  rw [if_neg (lt_irrefl (D / 2)), abs_of_nonneg (by positivity)]

theorem rampSpeed_pos (accel start N : ℕ) (hstart : 1 ≤ start) (hN : 1 ≤ N)
    (D curr cap : ℚ) (hcap : 0 < cap) :
    0 < rampSpeed accel start N D curr cap := by
  simp only [rampSpeed]
  have hdel : (0:ℤ) ≤ (if D / 2 < curr then pythonRound |D - curr|
      else pythonRound |curr|) := by
    split <;> exact pythonRound_nonneg _ (abs_nonneg _)
  have hentry :
      1 ≤ (SPEEDLIST accel start N).getD
        (min (if D / 2 < curr then pythonRound |D - curr| else pythonRound |curr|)
          ((N : ℤ) - 1)).toNat 0 :=
    rampSpeed_entry_ge_one accel start N hstart hN _ hdel
  have hsign : sign cap = 1 := by
    unfold sign
    rw [if_pos hcap.le]
  rw [hsign, one_mul]
  apply lt_min
  · exact lt_of_lt_of_le one_pos (by exact_mod_cast hentry)
  · rwa [abs_of_pos hcap]

/-- C4: for MoveDistance with `speed > 0` and no explicit timeout, the
computed time limit equals `(|distance| / peak) * 2000 + 500` ms where
`peak = lookup(round(|distance|/2), speed)` — the spec's `lookup` as
realised by `rampSpeed(|distance|, |distance|/2, speed)` — and any tick
whose odometry reading satisfies `|odometry| ≥ |distance|` is terminal, a
stop command and `step() = False`, even when the time limit has not yet
elapsed.  For distance 1000 and speed 500 the limit is
`(1000 / lookup(500, 500)) * 2000 + 500`.  Configuration constants are
parameters with `STARTSPEED ≥ 1` and `SPEED_LIST_COUNT ≥ 1`. -/
theorem moveDist_default_timeout_and_completion (accel start N : ℕ)
    (hstart : 1 ≤ start) (hN : 1 ≤ N) (distance speed : ℚ)
    (hspeed : 0 < speed) :
    moveDistStartup accel start N distance speed none =
      MDStart.ready
        (|distance| / lookup accel start N (pythonRound (|distance| / 2)) speed
          * 2000 + 500) ∧
    (∀ (turnCorr timeLimit : ℚ) (up down : Bool) (headAngle elapsed odo : ℚ),
       |distance| ≤ |odo| →
       moveDistStep accel start N turnCorr distance speed timeLimit up down
         headAngle elapsed odo = (Action.stop, false)) ∧
    moveDistStartup accel start N 1000 500 none =
      MDStart.ready (1000 / lookup accel start N 500 500 * 2000 + 500) := by
  have hmain : ∀ dist sp : ℚ, 0 < sp →
      moveDistStartup accel start N dist sp none =
        MDStart.ready
          (|dist| / lookup accel start N (pythonRound (|dist| / 2)) sp
            * 2000 + 500) := by
    intro dist sp hsp
    have hpos := rampSpeed_pos accel start N hstart hN |dist| (|dist| / 2) sp hsp
    simp only [moveDistStartup]
    rw [if_neg (not_lt.mpr hsp.le), if_neg (ne_of_gt hpos),
      rampSpeed_half_eq_lookup accel start N |dist| sp (abs_nonneg dist)]
    congr 1
    ring
  refine ⟨hmain distance speed hspeed, ?_, ?_⟩
  · intro turnCorr timeLimit up down headAngle elapsed odo hodo
    simp only [moveDistStep]
    by_cases ht : elapsed < timeLimit
    · rw [if_pos ht, if_pos hodo]
    · rw [if_neg ht]
  · have hc := hmain 1000 500 (by norm_num)
    rw [show |(1000:ℚ)| = 1000 by norm_num] at hc
    rw [show (1000:ℚ) / 2 = 500 by norm_num] at hc
    rw [show pythonRound (500:ℚ) = 500 by
      rw [show ((500:ℚ)) = ((500:ℤ) : ℚ) by norm_num, pythonRound_intCast]] at hc
    exact hc

/-- C4 witness: a concrete configuration satisfying the hypotheses. -/
theorem moveDist_default_timeout_witness :
    ((1:ℕ) ≤ 10 ∧ (1:ℕ) ≤ 100 ∧ (0:ℚ) < 500) ∧
    (moveDistStartup 10 10 100 1000 500 none =
      MDStart.ready
        (|(1000:ℚ)| / lookup 10 10 100 (pythonRound (|(1000:ℚ)| / 2)) 500
          * 2000 + 500) ∧
     (∀ (turnCorr timeLimit : ℚ) (up down : Bool) (headAngle elapsed odo : ℚ),
        |(1000:ℚ)| ≤ |odo| →
        moveDistStep 10 10 100 turnCorr 1000 500 timeLimit up down
          headAngle elapsed odo = (Action.stop, false)) ∧
     moveDistStartup 10 10 100 1000 500 none =
       MDStart.ready (1000 / lookup 10 10 100 500 500 * 2000 + 500)) :=
  ⟨⟨by norm_num, by norm_num, by norm_num⟩,
    moveDist_default_timeout_and_completion 10 10 100 (by norm_num) (by norm_num)
      1000 500 (by norm_num)⟩

/-- C9: a MoveDistance invocation with negative speed fails (the generator
prints "Error Negative speed" and returns before its loop): no drive command
is ever issued and the task performs no control ticks, whatever the
environment, flags, timeout and fuel. -/
theorem moveDist_negative_speed_aborts (accel start N : ℕ)
    (turnCorr distance speed : ℚ) (timeout : Option ℚ) (up down : Bool)
    (headAngle elapsed odo : ℕ → ℚ) (fuel : ℕ) (hspeed : speed < 0) :
    moveDistRun accel start N turnCorr distance speed timeout up down
      headAngle elapsed odo fuel = ([], 0, MDOutcome.invalidSpeed) := by
  unfold moveDistRun
  have hstart : moveDistStartup accel start N distance speed timeout =
      MDStart.invalidSpeed := by
    unfold moveDistStartup
    rw [if_pos hspeed]
  rw [hstart]

/-- C9 witness: speed `-5` aborts with no actions and no ticks. -/
theorem moveDist_negative_speed_aborts_witness :
    ((-5:ℚ) < 0) ∧
    moveDistRun 10 10 100 1 1000 (-5) none true true (fun _ => 0) (fun _ => 0)
      (fun _ => 0) 7 = ([], 0, MDOutcome.invalidSpeed) :=
  ⟨by norm_num,
    moveDist_negative_speed_aborts 10 10 100 1 1000 (-5) none true true
      (fun _ => 0) (fun _ => 0) (fun _ => 0) 7 (by norm_num)⟩

/-- C10 (implicit): with speed `0` and no explicit timeout, the
default-timeout computation divides `|distance|` by
`rampSpeed(|distance|, |distance|/2, 0)`, which equals `0` (the code's
`sign(0) = 1` and `min(table_entry, |0|) = 0` for every table), so the task
hits a division by zero before issuing any drive command and performs no
control ticks: `speed > 0`, not merely `speed ≥ 0`, is required for the
default-timeout path even though the explicit failure check is only
`speed < 0`. -/
theorem moveDist_zero_speed_div_by_zero (accel start N : ℕ)
    (turnCorr distance : ℚ) (up down : Bool)
    (headAngle elapsed odo : ℕ → ℚ) (fuel : ℕ) :
    rampSpeed accel start N |distance| (|distance| / 2) 0 = 0 ∧
    moveDistRun accel start N turnCorr distance 0 none up down
      headAngle elapsed odo fuel = ([], 0, MDOutcome.divByZero) := by
  have hzero : rampSpeed accel start N |distance| (|distance| / 2) 0 = 0 := by
    simp only [rampSpeed]
    rw [abs_zero, min_eq_right (by positivity), mul_zero]
  refine ⟨hzero, ?_⟩
  unfold moveDistRun
  have hstart : moveDistStartup accel start N distance 0 none =
      MDStart.divByZero := by
    simp only [moveDistStartup]
    rw [if_neg (lt_irrefl (0:ℚ)), if_pos hzero]
  rw [hstart]

end SpikePrime
